import Mathlib

/-!
Verification of the MultiModelVideo ingestion/retrieval core.

This file gives a shallow embedding, in Lean 4, of the pure logic of the
repository's ingestion pipeline and retrieval engine, and proves (or
refutes) the behavioural claims made about them.

Conventions of the embedding:
* Python `float` values are modelled as `ℚ` (the claims are about the
  algebraic values of timestamps, durations and scores).
* Python dictionaries with a fixed key set are modelled as structures whose
  fields are `Option`-valued when the corresponding key may be absent.
* Calls into external capabilities (vision description, embedding, the
  vector store, the caption provider) are modelled as explicit parameters:
  either the data they returned, or an `Except` value describing whether
  the call raised.
* A Python `try/except` that swallows an exception and returns a default is
  modelled by running the fallible body in the `Except` monad and mapping
  `.error` to the default.
* Pydantic model constructors validate their keyword arguments: keywords
  that are not fields of the model are ignored, and a missing required
  field raises `ValidationError`.  Where the repository calls a
  constructor, the embedding passes exactly the keywords the call site
  passes, `none` for required fields the call site omits.
-/

namespace MMV

/-- Embedding of `models/video_data.py`, `TranscriptChunk` (also aliased `VideoTranscript`):
fields `id`, `text`, `start_time`, `end_time` plus optional `confidence` and
`speaker`. -/
structure TranscriptChunk where
  id : String
  text : String
  start_time : ℚ
  end_time : ℚ
  confidence : Option ℚ := none
  speaker : Option String := none
deriving DecidableEq

/-- Embedding of `models/video_data.py`, `FrameData` (also aliased `VideoFrame`): fields
`id`, `frame_path`, `timestamp`, `scene_description`, `objects_detected`,
`confidence_scores`.  Note the model defines neither `video_id` nor
`thumbnail_path`; call sites that pass those keywords have them ignored by
the pydantic constructor. -/
structure FrameData where
  id : String
  frame_path : String
  timestamp : ℚ
  scene_description : Option String := none
  objects_detected : List String := []
  confidence_scores : List (String × ℚ) := []
deriving DecidableEq

/-- Python truthiness test `hasattr(frame, "scene_description") and
frame.scene_description`: the description must be present and non-empty. -/
def hasDescription (f : FrameData) : Bool :=
  match f.scene_description with
  | some s => s ≠ ""
  | none => false

/-- Python `sorted(frames, key=lambda x: x.timestamp)`: a stable sort by
timestamp (Python's sort is stable; `List.insertionSort` is a stable sort). -/
def sortFramesByTimestamp (frames : List FrameData) : List FrameData :=
  List.insertionSort (fun a b => a.timestamp ≤ b.timestamp) frames

/-- Embedding of `services/video_processor.py:332-346`, the chunk-building loop of
`generate_pseudo_transcript_from_frames`: walking the sorted frame list with
its enumeration index `i`, a frame with a non-empty scene description yields
a chunk from its timestamp to the next frame's timestamp (the last frame's
chunk ends 5 seconds after it starts). -/
def buildPseudoChunks (video_id : String) : ℕ → List FrameData → List TranscriptChunk
  | _, [] => []
  | i, f :: rest =>
    let end_time : ℚ :=
      match rest with
      | g :: _ => g.timestamp
      | [] => f.timestamp + 5
    (if hasDescription f then
      [{ id := video_id ++ "_visual_transcript_" ++ toString i,
         text := "Visual: " ++ f.scene_description.getD "",
         start_time := f.timestamp,
         end_time := end_time }]
     else []) ++ buildPseudoChunks video_id (i + 1) rest

/-- Embedding of `services/video_processor.py:319-353`,
`generate_pseudo_transcript_from_frames`.  The frame-analysis step
(`analyze_video_frames`, which calls the external vision capability) is the
capability boundary of the embedding: the argument `analyzed` is the list of
analyzed frames it produced.  An empty list short-circuits to `[]` (the
source checks this both for the raw and for the analyzed frame list);
otherwise the frames are sorted by timestamp and chunks are built from the
scene descriptions. -/
def generate_pseudo_transcript_from_frames
    (video_id : String) (analyzed : List FrameData) : List TranscriptChunk :=
  if analyzed.isEmpty then []
  else buildPseudoChunks video_id 0 (sortFramesByTimestamp analyzed)

/-- Embedding of `models/video_data.py`, `SearchResult`: required fields `id`, `content`,
`score`, `video_id`, `type`; optional `timestamp` (default `None`) and
`metadata` (default empty, modelled as an association list). -/
structure SearchResult where
  id : String
  content : String
  score : ℚ
  timestamp : Option ℚ := none
  video_id : String
  type : String
  metadata : List (String × String) := []
deriving DecidableEq

/-- The pydantic constructor of `SearchResult`.  Each argument is the value
supplied for the corresponding field keyword (`none` when the call site does
not pass it); keywords that are not fields of the model are ignored by
pydantic and hence do not appear.  A missing required field raises
`ValidationError`. -/
def mkSearchResult (id content : Option String) (score : Option ℚ)
    (timestamp : Option ℚ) (video_id : Option String) (type : Option String) :
    Except String SearchResult :=
  match id, content, score, video_id, type with
  | some i, some c, some sc, some v, some ty =>
    .ok { id := i, content := c, score := sc, timestamp := timestamp,
          video_id := v, type := ty }
  | _, _, _, _, _ => .error "ValidationError: missing required field"

/-- One metadata dictionary as stored in / returned by the vector store: the
union of the key sets written by `index_video_content`
(`rag_service.py:134-142` and `162-171`), every key optional. -/
structure StoreMetadata where
  video_id : Option String := none
  content_type : Option String := none
  start_time : Option ℚ := none
  end_time : Option ℚ := none
  chunk_id : Option String := none
  timestamp : Option ℚ := none
  frame_id : Option String := none
  frame_path : Option String := none
  thumbnail_path : Option String := none
deriving DecidableEq

/-- The per-query row lists of a ChromaDB query response
(`results["metadatas"][0]`, `results["distances"][0]`,
`results["documents"][0]`). -/
structure QueryRows where
  metadatas : List StoreMetadata
  distances : List ℚ
  documents : List String
deriving DecidableEq

/-- The embedding loop of `generate_text_embeddings`
(`ai_service.py:63-70`): one `genai.embed_content` call per text, collected
in order; the first raise aborts the whole loop. -/
def embedLoop (embedOne : String → Except Unit (List ℚ)) :
    List String → Except Unit (List (List ℚ))
  | [] => .ok []
  | t :: ts =>
    match embedOne t with
    | .error e => .error e
    | .ok v =>
      match embedLoop embedOne ts with
      | .error e => .error e
      | .ok rest => .ok (v :: rest)

/-- Embedding of `services/ai_service.py:56-77`, `generate_text_embeddings`.  The external
embedding capability is the parameter `embedOne` (`.error` models a raise
of `genai.embed_content`, which the surrounding `except` turns into one
384-dimensional zero vector per input text).  The unavailable-model early
return degrades the same way. -/
def generate_text_embeddings (embedOne : String → Except Unit (List ℚ))
    (texts : List String) : List (List ℚ) :=
  match embedLoop embedOne texts with
  | .ok embeddings => embeddings
  | .error _ => texts.map fun _ => List.replicate 384 (0 : ℚ)

/-- The timestamp selection of `search_similar_content`
(`rag_service.py:288-290`): `metadata.get("timestamp", 0)`, replaced by
`metadata["start_time"]` when falsy (i.e. 0) and a start time is present. -/
def searchRowTimestamp (m : StoreMetadata) : ℚ :=
  let t := m.timestamp.getD 0
  if t = 0 then
    match m.start_time with
    | some s => s
    | none => t
  else t

/-- Embedding of `rag_service.py:280-301`, the result-building loop of
`search_similar_content`, at enumeration index `i`.  Out-of-range distances
default to 1 and out-of-range documents to the empty string.  The
`SearchResult` constructor call passes the keywords `video_id`, `timestamp`,
`relevance_score`, `content_type`, `content`, `thumbnail_path`,
`frame_path`; of these only `video_id`, `timestamp` and `content` are fields
of the model, so the required fields `id`, `score` and `type` are missing
and the construction raises. -/
def buildSearchResults (rows : QueryRows) : ℕ → List StoreMetadata →
    Except String (List SearchResult)
  | _, [] => .ok []
  | i, m :: rest =>
    let distance := rows.distances.getD i 1
    let document := rows.documents.getD i ""
    let _relevance_score := max 0 (1 - distance)
    let timestamp := searchRowTimestamp m
    match mkSearchResult none (some document) none (some timestamp)
        (some (m.video_id.getD "")) none with
    | .error e => .error e
    | .ok r =>
      match buildSearchResults rows (i + 1) rest with
      | .error e => .error e
      | .ok rest' => .ok (r :: rest')

/-- Embedding of `rag_service.py:304`: `search_results.sort(key=lambda x:
x.relevance_score, reverse=True)`.  The sort key reads the attribute
`relevance_score`, which `SearchResult` does not define, so the key
function raises on every element; on an empty list the key is never
called and the sort is a no-op. -/
def sortByRelevance (l : List SearchResult) : Except String (List SearchResult) :=
  match l with
  | [] => .ok []
  | _ => .error "AttributeError: SearchResult has no attribute relevance_score"

/-- Embedding of `rag_service.py:250-311`, `search_similar_content`.  `embedOne` is the
embedding capability, `dbOutcome` the outcome of `db.query_embeddings` for
the query vector and filter built from `query`, `video_ids` and
`content_type` (`.error` models a raise).  The enclosing `try/except`
returns `[]` on any raise. -/
def search_similar_content (embedOne : String → Except Unit (List ℚ))
    (dbOutcome : Except String QueryRows) (query : String)
    (video_ids : Option (List String) := none)
    (content_type : Option String := none) : List SearchResult :=
  let _filter := (video_ids, content_type)
  let _query_embeddings := generate_text_embeddings embedOne [query]
  let body : Except String (List SearchResult) :=
    match dbOutcome with
    | .error e => .error e
    | .ok rows =>
      match buildSearchResults rows 0 rows.metadatas with
      | .error e => .error e
      | .ok results => sortByRelevance results
  match body with
  | .ok l => l
  | .error _ => []

/-- Embedding of `rag_service.py:215-239`, the row-processing loop of
`retrieve_relevant_content`, at enumeration index `i`.  Transcript rows
become `VideoTranscript` (= `TranscriptChunk`) values and visual rows
`VideoFrame` (= `FrameData`) values; rows of any other content type are
skipped.  The constructor keywords `video_id` (both calls) and
`thumbnail_path` (frame call) are not fields of the models and are ignored;
the `f"temp_{uuid.uuid4()}"` fallback identifiers are abstracted to
`"temp"`. -/
def retrieveRows (rows : QueryRows) : ℕ → List StoreMetadata →
    List TranscriptChunk × List FrameData
  | _, [] => ([], [])
  | i, m :: rest =>
    let document := rows.documents.getD i ""
    let (ts, fs) := retrieveRows rows (i + 1) rest
    match m.content_type with
    | some "transcript" =>
      ({ id := m.chunk_id.getD "temp", text := document,
         start_time := m.start_time.getD 0,
         end_time := m.end_time.getD 0 } :: ts, fs)
    | some "visual" =>
      (ts, { id := m.frame_id.getD "temp",
             timestamp := m.timestamp.getD 0,
             frame_path := m.frame_path.getD "",
             scene_description := some document } :: fs)
    | _ => (ts, fs)

/-- Embedding of `rag_service.py:187-248`, `retrieve_relevant_content`.  `embedOne` is the
embedding capability and `dbOutcome` the outcome of `db.query_embeddings`
for the query vector and the filter built from `video_id` and
`content_types`.  The enclosing `try/except` returns `([], [])` on any
raise. -/
def retrieve_relevant_content (embedOne : String → Except Unit (List ℚ))
    (dbOutcome : Except String QueryRows) (query : String) (video_id : String)
    (content_types : Option (List String) := none) :
    List TranscriptChunk × List FrameData :=
  let _filter := (video_id, content_types)
  let _query_embeddings := generate_text_embeddings embedOne [query]
  let body : Except String (List TranscriptChunk × List FrameData) :=
    match dbOutcome with
    | .error e => .error e
    | .ok rows => .ok (retrieveRows rows 0 rows.metadatas)
  match body with
  | .ok p => p
  | .error _ => ([], [])

/-- One record of the single bulk `db.add_embeddings` call: an id, an
embedding vector, a metadata dictionary and a document text
(`rag_service.py:117-176`). -/
structure StoredRecord where
  id : String
  embedding : List ℚ
  metadata : StoreMetadata
  document : String
deriving DecidableEq

/-- Embedding of `rag_service.py:132-143`: the transcript part of the record batch, one
record per transcript chunk (chunks are not filtered), id
`{video_id}_transcript_{i}`. -/
def transcriptRecords (video_id : String) : ℕ →
    List (TranscriptChunk × List ℚ) → List StoredRecord
  | _, [] => []
  | i, (chunk, embedding) :: rest =>
    { id := video_id ++ "_transcript_" ++ toString i,
      embedding := embedding,
      metadata := { video_id := some video_id,
                    content_type := some "transcript",
                    start_time := some chunk.start_time,
                    end_time := some chunk.end_time,
                    chunk_id := some chunk.id },
      document := chunk.text } :: transcriptRecords video_id (i + 1) rest

/-- Embedding of `rag_service.py:159-172`: the visual part of the record batch.  Building
the metadata dictionary reads `frame.thumbnail_path`; `FrameData`
(`models/video_data.py:74-81`) defines no such field (the pipeline's frames
were constructed with `thumbnail_path` passed as an ignored extra keyword,
`video_processor.py:406-414`), so the attribute access raises
`AttributeError` for every frame that reaches this loop. -/
def frameRecords (_video_id : String) : ℕ → List (FrameData × List ℚ) →
    Except String (List StoredRecord)
  | _, [] => .ok []
  | _i, (_frame, _embedding) :: _rest =>
    .error "AttributeError: FrameData has no attribute thumbnail_path"

/-- Embedding of `rag_service.py:108-185`, `index_video_content`.  `embedOne` is the
embedding capability and `upsert` the outcome of the single bulk
`db.add_embeddings` call (`.error` models a raise).  Returns the success
flag together with the records actually stored; the enclosing `try/except`
returns `false` (nothing stored) on any raise. -/
def index_video_content (embedOne : String → Except Unit (List ℚ))
    (upsert : Except String Unit) (video_id : String)
    (transcript_chunks : List TranscriptChunk) (frames : List FrameData) :
    Bool × List StoredRecord :=
  let transcript_texts := transcript_chunks.map (·.text)
  let trecs : List StoredRecord :=
    if transcript_texts.isEmpty then []
    else
      let transcript_embeddings := generate_text_embeddings embedOne transcript_texts
      transcriptRecords video_id 0 (transcript_chunks.zip transcript_embeddings)
  let frame_data := frames.filter hasDescription
  let frecsOutcome : Except String (List StoredRecord) :=
    if frame_data.isEmpty then .ok []
    else
      let frame_embeddings :=
        generate_text_embeddings embedOne (frame_data.map (·.scene_description.getD ""))
      frameRecords video_id 0 (frame_data.zip frame_embeddings)
  let body : Except String (Bool × List StoredRecord) :=
    match frecsOutcome with
    | .error e => .error e
    | .ok frecs =>
      let ids := trecs ++ frecs
      if ids.isEmpty then .ok (false, [])
      else
        match upsert with
        | .error e => .error e
        | .ok _ => .ok (true, ids)
  match body with
  | .ok r => r
  | .error _ => (false, [])

/-- Python's `abs` on a number. -/
def pyabs (q : ℚ) : ℚ := if q < 0 then -q else q

/-- Value of an ASCII digit character. -/
def digitVal (c : Char) : ℕ := c.toNat - '0'.toNat

/-- One attempt of the regular expression `\[(\d{1,2}):(\d{2})\]`
(`ai_service.py:161`) at the head of the character list: a literal `[`,
one or two digits (two preferred, as the quantifier is greedy), `:`, exactly
two digits, `]`.  On success returns the matched time in seconds together
with the rest of the input after the match.  Python's `\d` also accepts
non-ASCII Unicode decimal digits; the embedding restricts to ASCII digits. -/
def tryMatchTimestamp (l : List Char) : Option (ℕ × List Char) :=
  match l with
  | '[' :: rest =>
    let oneDigit : Option (ℕ × List Char) :=
      match rest with
      | d1 :: ':' :: s1 :: s2 :: ']' :: rem =>
        if d1.isDigit && s1.isDigit && s2.isDigit then
          some (digitVal d1 * 60 + (digitVal s1 * 10 + digitVal s2), rem)
        else none
      | _ => none
    (match rest with
     | d1 :: d2 :: ':' :: s1 :: s2 :: ']' :: rem =>
       if d1.isDigit && d2.isDigit && s1.isDigit && s2.isDigit then
         some ((digitVal d1 * 10 + digitVal d2) * 60 + (digitVal s1 * 10 + digitVal s2), rem)
       else oneDigit
     | _ => oneDigit)
  | _ => none

/-- Embedding of `re.findall` of the pattern above: non-overlapping matches scanned left
to right, resuming after each match.  `fuel` bounds the recursion (each step
consumes at least one character, so the input length suffices). -/
def scanTimestamps : ℕ → List Char → List ℕ
  | 0, _ => []
  | _, [] => []
  | fuel + 1, c :: tl =>
    match tryMatchTimestamp (c :: tl) with
    | some (t, rem) => t :: scanTimestamps fuel rem
    | none => scanTimestamps fuel tl

/-- Embedding of `min(available_timestamps, key=lambda x: abs(x - timestamp))`
(`ai_service.py:169`): the first element of the list minimising the
distance to `t` (Python's `min` keeps the earliest minimiser); `none` on an
empty list. -/
def closest_available (avail : List ℚ) (t : ℚ) : Option ℚ :=
  match avail with
  | [] => none
  | a :: rest =>
    some (rest.foldl (fun best x =>
      if pyabs (x - t) < pyabs (best - t) then x else best) a)

/-- The accumulation loop of `_extract_timestamps` (`ai_service.py:164-171`):
for each parsed match the closest available timestamp is appended when it is
within 30 seconds of the parsed value; nothing is appended when the
available list is empty. -/
def extractLoop (avail : List ℚ) (parsed : List ℕ) : List ℚ :=
  parsed.foldl (fun (acc : List ℚ) (t : ℕ) =>
    match closest_available avail (t : ℚ) with
    | some closest => if pyabs (closest - (t : ℚ)) ≤ 30 then acc ++ [closest] else acc
    | none => acc) []

/-- Embedding of `services/ai_service.py:158-172`, `_extract_timestamps`: scan the
response for `[MM:SS]` references, resolve each against the available
timestamps, and return `list(set(timestamps))` — the same members with
duplicates removed (the iteration order of a Python set is unspecified;
the embedding uses `List.dedup`). -/
def extract_timestamps (response : String) (available_timestamps : List ℚ) :
    List ℚ :=
  (extractLoop available_timestamps
    (scanTimestamps response.data.length response.data)).dedup

/-- Embedding of `models/video_data.py:207-213` (and identically 173-179), the
`validate_timestamps` field validator of `QueryResult.timestamp_references`
and `ChatResponse.timestamp_references`: raise `ValueError` when any
timestamp is negative, otherwise return the list sorted ascending. -/
def validate_timestamps (v : List ℚ) : Except String (List ℚ) :=
  if ¬ v.isEmpty ∧ v.any (fun t => t < 0) then
    .error "ValueError: Timestamps must be non-negative"
  else
    .ok (List.insertionSort (fun a b => a ≤ b) v)

/-- The timestamp references delivered to the caller of the chat endpoint
(`api/routes/chat.py:79-91`): the list extracted by `_extract_timestamps`
from the generated response, passed through the `timestamp_references`
field validator of the response model. -/
def delivered_timestamp_references (response : String) (avail : List ℚ) :
    Except String (List ℚ) :=
  validate_timestamps (extract_timestamps response avail)

/-- One raw caption entry as returned by the caption provider:
a dictionary with optional keys `text`, `start`, `duration`. -/
structure CaptionEntry where
  text : Option String := none
  start : Option ℚ := none
  duration : Option ℚ := none
deriving DecidableEq

/-- Embedding of `services/video_processor.py:162-175`, the normalization loop of
`extract_youtube_transcript` over the caption entries of the provider, at
enumeration index `i`: text is stripped, start defaults to 0, end is start
plus the duration (defaulting to 0), and entries whose stripped text is
empty are dropped.  Python `str.strip()` is modelled by `String.trim`. -/
def captionChunk (video_id : String) (i : ℕ) (e : CaptionEntry) : TranscriptChunk :=
  { id := video_id ++ "_transcript_" ++ toString i,
    text := (e.text.getD "").trim,
    start_time := e.start.getD 0,
    end_time := e.start.getD 0 + e.duration.getD 0 }

/-- The `if chunk.text: chunks.append(chunk)` filter of the same loop. -/
def captionChunks (video_id : String) : ℕ → List CaptionEntry → List TranscriptChunk
  | _, [] => []
  | i, e :: rest =>
    (if (captionChunk video_id i e).text ≠ "" then [captionChunk video_id i e]
     else []) ++ captionChunks video_id (i + 1) rest

/-- Embedding of `services/video_processor.py:139-182`, `extract_youtube_transcript`.
The caption-acquisition fallback chain (`_get_best_transcript` and the
provider calls behind it) is the capability boundary: `entries` is the
entry list the chain returned; the function normalizes it into transcript
chunks. -/
def extract_youtube_transcript (video_id : String)
    (entries : List CaptionEntry) : List TranscriptChunk :=
  captionChunks video_id 0 entries

/-- Embedding of `api/routes/chat.py:29-44`, `_get_video_id_match`.  The source extracts
the id of each entry of `available_videos`; `available_ids` is that id
list.  Matching tries the requested id exactly, then with the `youtube_`
provenance prefix prepended, then (when the request already starts with
the prefix) with the prefix stripped (`video_id[8:]`). -/
def get_video_id_match (video_id : String) (available_ids : List String) :
    Option String :=
  if available_ids.contains video_id then some video_id
  else if available_ids.contains ("youtube_" ++ video_id) then
    some ("youtube_" ++ video_id)
  else if video_id.startsWith "youtube_" && available_ids.contains (video_id.drop 8) then
    some (video_id.drop 8)
  else none

/-- One write of `processing_status[video_id]` performed by the pipeline
(`api/routes/videos.py`): the status string and the progress value the
entry holds after the write (the message strings are irrelevant to the
claims and omitted). -/
structure StatusWrite where
  status : String
  progress : ℚ
deriving DecidableEq

/-- The external outcomes a single pipeline run branches on
(`api/routes/videos.py:51-230`):
* `transcript_only`: the metadata status is `TRANSCRIPT_ONLY`;
* `file_available`: a local media path is set and the file exists;
* `analysis_empty`: one flag per extracted frame, true when
  `ai_service.analyze_image` returned an empty string for it.  (That is the
  only branch of `_analyze_frames_with_ai` that reaches the progress write:
  a non-empty string is truthy and `analysis.get("description", "")` then
  raises `AttributeError`, which the per-frame `except` swallows without
  updating progress.) -/
structure PipelineCfg where
  transcript_only : Bool
  file_available : Bool
  analysis_empty : List Bool
deriving DecidableEq

/-- Embedding of `api/routes/videos.py:558-593`, the progress values
`0.3 + 0.3 * processed_frames / total_frames` written by
`_analyze_frames_with_ai`.  `processed_frames` is incremented for every
frame (the `except` path included), so for the frame at 0-based index `i`
the written value is `0.3 + 0.3 * (i + 1) / n`; the write happens only when
that frame's analysis came back empty. -/
def analyzeFramesProgress (n : ℕ) : ℕ → List Bool → List ℚ
  | _, [] => []
  | i, empty :: rest =>
    (if empty then [3/10 + 3/10 * ((i : ℚ) + 1) / (n : ℚ)] else []) ++
      analyzeFramesProgress n (i + 1) rest

/-- The sequence of status-tracker writes of one pipeline run up to (but
not including) the final `completed` write, in program order
(`api/routes/videos.py:57-164`): start at 0.1; 0.3 after the
transcript-only branch or after frame extraction (skipped when no local
media file is available), followed in the latter case by the
frame-analysis progress writes; then 0.6 (transcript extraction), 0.7
(content processing; the pseudo-transcript fallback only updates the
message), 0.8 (chapters), 0.8 (indexing), 0.9 (summary). -/
def pipelineProcessingWrites (cfg : PipelineCfg) : List StatusWrite :=
  [⟨"processing", 1/10⟩] ++
  (if cfg.transcript_only then [⟨"processing", 3/10⟩]
   else if cfg.file_available then
     [⟨"processing", 3/10⟩] ++
       (analyzeFramesProgress cfg.analysis_empty.length 0 cfg.analysis_empty).map
         (fun p => ⟨"processing", p⟩)
   else []) ++
  [⟨"processing", 6/10⟩, ⟨"processing", 7/10⟩, ⟨"processing", 8/10⟩,
   ⟨"processing", 8/10⟩, ⟨"processing", 9/10⟩]

/-- Embedding of `api/routes/videos.py:51-230`, `process_video_pipeline`, as the sequence
of status-tracker writes it performs.  A successful run performs the
processing writes followed by the `completed` write at progress 1.0
(lines 175-179); an exception anywhere truncates the sequence after some
number of writes (`failAfter`) and the handler appends the `failed` write
at progress 0.0 (lines 204-210). -/
def process_video_pipeline_writes (cfg : PipelineCfg) (failAfter : Option ℕ) :
    List StatusWrite :=
  match failAfter with
  | none => pipelineProcessingWrites cfg ++ [(⟨"completed", 1⟩ : StatusWrite)]
  | some k =>
    (pipelineProcessingWrites cfg ++ [(⟨"completed", 1⟩ : StatusWrite)]).take k
      ++ [(⟨"failed", 0⟩ : StatusWrite)]

/-- A write that establishes a terminal pipeline state. -/
def isTerminalWrite (w : StatusWrite) : Bool :=
  w.status == "completed" || w.status == "failed"

/-- The prefix of a write sequence before the first terminal write. -/
def writesBeforeTerminal (l : List StatusWrite) : List StatusWrite :=
  l.takeWhile (fun w => !isTerminalWrite w)

/-- The fixed stage checkpoints named by the specification. -/
def checkpointProgresses : List ℚ := [1/10, 3/10, 6/10, 7/10, 8/10, 9/10, 1]

/-- Embedding of `api/routes/videos.py:351-391`, `get_processing_status` for one video
identifier.  `tracker` is the in-memory `processing_status` entry when one
exists; `record` is the persisted metadata record when one exists, carrying
its optional `status` field.  With no in-memory entry but an existing
record, a status entry is synthesized from the persisted status: any value
other than `"processing"` yields `("completed", 1.0)`, `"processing"`
yields `("processing", 0.5)`.  With neither, the endpoint raises 404. -/
def get_processing_status (tracker : Option StatusWrite)
    (record : Option (Option String)) : Except String StatusWrite :=
  match tracker with
  | some entry => .ok entry
  | none =>
    match record with
    | some persisted =>
      if persisted ≠ some "processing" then .ok ⟨"completed", 1⟩
      else .ok ⟨"processing", 1/2⟩
    | none => .error "404: Video not found"

/-- The terminal statuses of the `VideoStatus` state machine
(`models/video_data.py:10-16`, spec section 4.1). -/
def terminalStatuses : List String := ["completed", "failed"]

instance : IsTotal FrameData (fun a b => a.timestamp ≤ b.timestamp) :=
  ⟨fun a b => le_total a.timestamp b.timestamp⟩

instance : IsTrans FrameData (fun a b => a.timestamp ≤ b.timestamp) :=
  ⟨fun _ _ _ h1 h2 => le_trans h1 h2⟩

/-! ## Theorems -/

theorem embedLoop_ok_length (embedOne : String → Except Unit (List ℚ)) :
    ∀ (texts : List String) (l : List (List ℚ)),
      embedLoop embedOne texts = .ok l → l.length = texts.length := by
  intro texts
  induction texts with
  | nil => intro l h; simp [embedLoop] at h; simp [← h]
  | cons t ts ih =>
    intro l h
    simp only [embedLoop] at h
    cases hv : embedOne t with
    | error e => rw [hv] at h; simp at h
    | ok v =>
      rw [hv] at h
      cases hrest : embedLoop embedOne ts with
      | error e => rw [hrest] at h; simp at h
      | ok rest =>
        rw [hrest] at h
        simp only [Except.ok.injEq] at h
        simp [← h, ih rest hrest]

/-- The embedding stage never raises and always yields one vector per input
text: a raise of the underlying capability degrades to zero vectors of the
configured dimensionality (`ai_service.py:75-77`). -/
theorem generate_text_embeddings_length
    (embedOne : String → Except Unit (List ℚ)) (texts : List String) :
    (generate_text_embeddings embedOne texts).length = texts.length := by
  unfold generate_text_embeddings
  cases h : embedLoop embedOne texts with
  | ok l => exact embedLoop_ok_length embedOne texts l h
  | error e => exact List.length_map _ _

/-- C7: video-identifier resolution returns the requested identifier when it
is among the available ones; otherwise the identifier with the `youtube_`
provenance prefix prepended, when that is available; otherwise, when the
requested identifier starts with that prefix, the identifier with the
prefix stripped, when that is available; otherwise no match. -/
theorem claim_C7_video_id_resolution (video_id : String)
    (available : List String) :
    get_video_id_match video_id available =
      if video_id ∈ available then some video_id
      else if ("youtube_" ++ video_id) ∈ available then
        some ("youtube_" ++ video_id)
      else if video_id.startsWith "youtube_" ∧ (video_id.drop 8) ∈ available then
        some (video_id.drop 8)
      else none := by
  have hmem : ∀ (l : List String) (a : String), l.contains a = true ↔ a ∈ l := by
    intro l a
    exact List.elem_iff
  simp only [get_video_id_match]
  split_ifs with h1 h2 h3 h4 h5 h6 h7 <;>
    simp_all [hmem, Bool.and_eq_true]

/-- C9: with no in-memory tracker entry but an existing durable metadata
record, the status endpoint synthesizes an entry from the persisted status:
persisted `"processing"` yields status `"processing"` at progress 0.5, and
any terminal persisted status yields progress 1.0. -/
theorem claim_C9_status_synthesis (persisted : Option String) :
    (persisted = some "processing" →
      get_processing_status none (some persisted) = .ok ⟨"processing", 1/2⟩) ∧
    (∀ s, persisted = some s → s ∈ terminalStatuses →
      ∃ st, get_processing_status none (some persisted) = .ok ⟨st, 1⟩) := by
  constructor
  · intro h
    subst h
    simp [get_processing_status]
  · intro s hs hterm
    subst hs
    refine ⟨"completed", ?_⟩
    have hne : some s ≠ some "processing" := by
      simp only [terminalStatuses, List.mem_cons, List.mem_singleton] at hterm
      rcases hterm with h | h | h <;> simp_all
    simp [get_processing_status, hne]

theorem claim_C9_witness :
    get_processing_status none (some (some "processing")) =
      .ok ⟨"processing", 1/2⟩ ∧
    ∃ st, get_processing_status none (some (some "failed")) = .ok ⟨st, 1⟩ :=
  ⟨(claim_C9_status_synthesis (some "processing")).1 rfl,
   (claim_C9_status_synthesis (some "failed")).2 "failed" rfl (by decide)⟩

/-- C2: `search_similar_content` returns the empty list on every input.  The
loop that would carry the `max(0, 1 - distance)` relevance scores constructs
`SearchResult` without its required fields `id`, `score` and `type` (it
passes `relevance_score`, `content_type`, `thumbnail_path`, `frame_path`,
none of which the model defines), so pydantic raises `ValidationError` for
every returned row and the enclosing `except` yields `[]`; with no rows the
loop yields `[]` directly. -/
theorem claim_C2_search_always_empty (embedOne : String → Except Unit (List ℚ))
    (dbOutcome : Except String QueryRows) (query : String)
    (video_ids : Option (List String)) (content_type : Option String) :
    search_similar_content embedOne dbOutcome query video_ids content_type = [] := by
  unfold search_similar_content
  cases dbOutcome with
  | error e => simp
  | ok rows =>
    cases hrows : rows.metadatas with
    | nil => simp [hrows, buildSearchResults, sortByRelevance]
    | cons m rest =>
      simp [hrows, buildSearchResults, mkSearchResult]

/-- C10: neither retrieval entry point propagates an exception.  A raise of
the vector-store query yields the empty result (`([], [])`, resp. `[]`),
and a raise inside query-embedding generation is already absorbed there,
which always returns one vector per input text. -/
theorem claim_C10_no_exception_propagation
    (embedOne : String → Except Unit (List ℚ)) (e : String)
    (query video_id : String) (content_types : Option (List String))
    (video_ids : Option (List String)) (content_type : Option String)
    (texts : List String) :
    retrieve_relevant_content embedOne (.error e) query video_id content_types
        = ([], []) ∧
    search_similar_content embedOne (.error e) query video_ids content_type
        = [] ∧
    (generate_text_embeddings embedOne texts).length = texts.length := by
  refine ⟨?_, ?_, generate_text_embeddings_length embedOne texts⟩
  · unfold retrieve_relevant_content
    simp
  · unfold search_similar_content
    simp

/-- C6: evaluation of `index_video_content` at a batch holding one visual
unit with a non-empty scene description (the embedding capability and the
bulk upsert both succeed): the function returns `false` and stores nothing,
because building the visual metadata record reads `frame.thumbnail_path`,
which `FrameData` does not define.  A batch of one transcript unit, by
contrast, indexes successfully. -/
theorem claim_C6_visual_indexing_fails :
    index_video_content (fun _ => .ok [1]) (.ok ()) "v" []
        [⟨"v_frame_0", "frames/f.jpg", 0, some "a scene", [], []⟩]
      = (false, []) ∧
    hasDescription ⟨"v_frame_0", "frames/f.jpg", 0, some "a scene", [], []⟩
      = true ∧
    (index_video_content (fun _ => .ok [1]) (.ok ()) "v"
        [⟨"c0", "hello", 0, 5, none, none⟩] []).1 = true := by
  refine ⟨?_, by decide, ?_⟩ <;> rfl

theorem captionChunks_length (video_id : String) :
    ∀ (i : ℕ) (entries : List CaptionEntry),
      (captionChunks video_id i entries).length =
        (entries.filter (fun e => (e.text.getD "").trim ≠ "")).length := by
  intro i entries
  induction entries generalizing i with
  | nil => simp [captionChunks]
  | cons e rest ih =>
    by_cases h : (e.text.getD "").trim = "" <;>
      simp [captionChunks, captionChunk, List.filter_cons, h, ih]

theorem captionChunks_mem (video_id : String) :
    ∀ (i : ℕ) (entries : List CaptionEntry) (c : TranscriptChunk),
      c ∈ captionChunks video_id i entries →
      c.text ≠ "" ∧
      ∃ e ∈ entries, c.text = (e.text.getD "").trim ∧
        c.start_time = e.start.getD 0 ∧
        c.end_time = e.start.getD 0 + e.duration.getD 0 := by
  intro i entries
  induction entries generalizing i with
  | nil => intro c hc; simp [captionChunks] at hc
  | cons e rest ih =>
    intro c hc
    simp only [captionChunks, List.mem_append] at hc
    rcases hc with hc | hc
    · by_cases h : (captionChunk video_id i e).text = ""
      · rw [if_neg (by simpa using h)] at hc
        simp at hc
      · rw [if_pos h] at hc
        have hc' : c = captionChunk video_id i e := by simpa using hc
        subst hc'
        refine ⟨h, e, List.mem_cons_self e rest, ?_, ?_, ?_⟩ <;>
          simp [captionChunk]
    · obtain ⟨hne, e', he', rest'⟩ := ih (i + 1) c hc
      exact ⟨hne, e', List.mem_cons_of_mem e he', rest'⟩

/-- C5: caption normalization drops exactly the entries whose stripped text
is empty, and every produced chunk carries the stripped text of some entry,
starts at that entry's start (default 0) and ends at start plus the
reported duration (default 0); under non-negative durations every chunk has
non-empty text and `start_time ≤ end_time`. -/
theorem claim_C5_caption_normalization (video_id : String)
    (entries : List CaptionEntry)
    (hdur : ∀ e ∈ entries, 0 ≤ e.duration.getD 0) :
    (extract_youtube_transcript video_id entries).length =
      (entries.filter (fun e => (e.text.getD "").trim ≠ "")).length ∧
    ∀ c ∈ extract_youtube_transcript video_id entries,
      c.text ≠ "" ∧ c.start_time ≤ c.end_time ∧
      ∃ e ∈ entries, c.text = (e.text.getD "").trim ∧
        c.start_time = e.start.getD 0 ∧
        c.end_time = e.start.getD 0 + e.duration.getD 0 := by
  refine ⟨captionChunks_length video_id 0 entries, ?_⟩
  intro c hc
  obtain ⟨hne, e, he, htext, hstart, hend⟩ :=
    captionChunks_mem video_id 0 entries c hc
  refine ⟨hne, ?_, e, he, htext, hstart, hend⟩
  rw [hstart, hend]
  have := hdur e he
  linarith

theorem claim_C5_witness :
    (extract_youtube_transcript "v"
        [⟨some " hello ", some 2, some 3⟩, ⟨some "   ", some 9, none⟩]).length =
      (([⟨some " hello ", some 2, some 3⟩, ⟨some "   ", some 9, none⟩] :
          List CaptionEntry).filter
        (fun e => (e.text.getD "").trim ≠ "")).length ∧
    ∀ c ∈ extract_youtube_transcript "v"
        [⟨some " hello ", some 2, some 3⟩, ⟨some "   ", some 9, none⟩],
      c.text ≠ "" ∧ c.start_time ≤ c.end_time ∧
      ∃ e ∈ ([⟨some " hello ", some 2, some 3⟩, ⟨some "   ", some 9, none⟩] :
          List CaptionEntry), c.text = (e.text.getD "").trim ∧
        c.start_time = e.start.getD 0 ∧
        c.end_time = e.start.getD 0 + e.duration.getD 0 :=
  claim_C5_caption_normalization "v"
    [⟨some " hello ", some 2, some 3⟩, ⟨some "   ", some 9, none⟩]
    (by decide)

theorem extractLoop_mem_aux (avail : List ℚ) :
    ∀ (parsed : List ℕ) (acc : List ℚ) (y : ℚ),
      (y ∈ parsed.foldl (fun (acc : List ℚ) (t : ℕ) =>
          match closest_available avail (t : ℚ) with
          | some closest =>
            if pyabs (closest - (t : ℚ)) ≤ 30 then acc ++ [closest] else acc
          | none => acc) acc) ↔
        (y ∈ acc ∨ ∃ t ∈ parsed, closest_available avail (t : ℚ) = some y ∧
          pyabs (y - (t : ℚ)) ≤ 30) := by
  intro parsed
  induction parsed with
  | nil => intro acc y; simp
  | cons t0 rest ih =>
    intro acc y
    rw [List.foldl_cons, ih]
    cases hce : closest_available avail (t0 : ℚ) with
    | none => simp [hce]
    | some c =>
      by_cases htest : pyabs (c - (t0 : ℚ)) ≤ 30
      · simp only [hce, if_pos htest, List.mem_append, List.mem_singleton]
        constructor
        · rintro (⟨hy | hy⟩ | ⟨t, ht, hcl, hd⟩)
          · exact Or.inl hy
          · subst hy
            exact Or.inr ⟨t0, List.mem_cons_self t0 rest, hce, htest⟩
          · exact Or.inr ⟨t, List.mem_cons_of_mem t0 ht, hcl, hd⟩
        · rintro (hy | ⟨t, ht, hcl, hd⟩)
          · exact Or.inl (Or.inl hy)
          · rcases List.mem_cons.mp ht with h0 | h0
            · subst h0
              rw [hce] at hcl
              cases hcl
              exact Or.inl (Or.inr rfl)
            · exact Or.inr ⟨t, h0, hcl, hd⟩
      · simp only [hce, if_neg htest]
        constructor
        · rintro (hy | ⟨t, ht, hcl, hd⟩)
          · exact Or.inl hy
          · exact Or.inr ⟨t, List.mem_cons_of_mem t0 ht, hcl, hd⟩
        · rintro (hy | ⟨t, ht, hcl, hd⟩)
          · exact Or.inl hy
          · rcases List.mem_cons.mp ht with h0 | h0
            · subst h0
              rw [hce] at hcl
              cases hcl
              exact absurd hd htest
            · exact Or.inr ⟨t, h0, hcl, hd⟩

theorem closestFold_spec (t : ℚ) :
    ∀ (rest : List ℚ) (best : ℚ),
      (rest.foldl (fun b x => if pyabs (x - t) < pyabs (b - t) then x else b) best
          = best ∨
       rest.foldl (fun b x => if pyabs (x - t) < pyabs (b - t) then x else b) best
          ∈ rest) ∧
      pyabs (rest.foldl (fun b x => if pyabs (x - t) < pyabs (b - t) then x else b)
          best - t) ≤ pyabs (best - t) ∧
      ∀ x ∈ rest,
        pyabs (rest.foldl (fun b x => if pyabs (x - t) < pyabs (b - t) then x else b)
          best - t) ≤ pyabs (x - t) := by
  intro rest
  induction rest with
  | nil => intro best; simp
  | cons x0 rest ih =>
    intro best
    rw [List.foldl_cons]
    by_cases hx : pyabs (x0 - t) < pyabs (best - t)
    · rw [if_pos hx]
      obtain ⟨hmem, hle, hall⟩ := ih x0
      refine ⟨?_, le_trans hle (le_of_lt hx), ?_⟩
      · rcases hmem with h | h
        · exact Or.inr (by rw [h]; exact List.mem_cons_self x0 rest)
        · exact Or.inr (List.mem_cons_of_mem x0 h)
      · intro x hxmem
        rcases List.mem_cons.mp hxmem with h | h
        · rw [h]; exact hle
        · exact hall x h
    · rw [if_neg hx]
      obtain ⟨hmem, hle, hall⟩ := ih best
      refine ⟨?_, hle, ?_⟩
      · rcases hmem with h | h
        · exact Or.inl h
        · exact Or.inr (List.mem_cons_of_mem x0 h)
      · intro x hxmem
        rcases List.mem_cons.mp hxmem with h | h
        · rw [h]; exact le_trans hle (le_of_not_lt hx)
        · exact hall x h

theorem closest_available_spec (avail : List ℚ) (t c : ℚ)
    (h : closest_available avail t = some c) :
    c ∈ avail ∧ ∀ x ∈ avail, pyabs (c - t) ≤ pyabs (x - t) := by
  cases avail with
  | nil => simp [closest_available] at h
  | cons a rest =>
    simp only [closest_available, Option.some.injEq] at h
    obtain ⟨hmem, hle, hall⟩ := closestFold_spec t rest a
    rw [h] at hmem hle hall
    constructor
    · rcases hmem with h0 | h0
      · rw [h0]; exact List.mem_cons_self a rest
      · exact List.mem_cons_of_mem a h0
    · intro x hx
      rcases List.mem_cons.mp hx with h0 | h0
      · rw [h0]; exact hle
      · exact hall x h0

/-- C3: a value belongs to the extracted timestamp references exactly when
some `[MM:SS]` occurrence of the response parses to a time whose closest
available timestamp it is, within the 30-second tolerance; with a non-empty
candidate list every parsed value has a closest candidate, and that
candidate minimises the distance over the candidates (so a parsed value
farther than 30 seconds from every candidate contributes nothing). -/
theorem claim_C3_timestamp_extraction (response : String) (avail : List ℚ)
    (havail : avail ≠ []) :
    (∀ y : ℚ, y ∈ extract_timestamps response avail ↔
      ∃ t ∈ scanTimestamps response.data.length response.data,
        closest_available avail (t : ℚ) = some y ∧
        pyabs (y - (t : ℚ)) ≤ 30) ∧
    (∀ t : ℚ, ∃ c, closest_available avail t = some c) ∧
    (∀ t c : ℚ, closest_available avail t = some c →
      c ∈ avail ∧ ∀ x ∈ avail, pyabs (c - t) ≤ pyabs (x - t)) := by
  refine ⟨?_, ?_, closest_available_spec avail⟩
  · intro y
    unfold extract_timestamps extractLoop
    rw [List.mem_dedup,
      extractLoop_mem_aux avail (scanTimestamps response.data.length response.data) [] y]
    simp
  · intro t
    cases avail with
    | nil => exact absurd rfl havail
    | cons a rest => exact ⟨_, rfl⟩

theorem claim_C3_witness :
    (∀ y : ℚ, y ∈ extract_timestamps "See [00:05] and [05:00]." [0, 5, 40] ↔
      ∃ t ∈ scanTimestamps "See [00:05] and [05:00].".data.length
          "See [00:05] and [05:00].".data,
        closest_available [0, 5, 40] (t : ℚ) = some y ∧
        pyabs (y - (t : ℚ)) ≤ 30) ∧
    (∀ t : ℚ, ∃ c, closest_available [0, 5, 40] t = some c) ∧
    (∀ t c : ℚ, closest_available [0, 5, 40] t = some c →
      c ∈ [0, 5, 40] ∧ ∀ x ∈ [0, 5, 40], pyabs (c - t) ≤ pyabs (x - t)) :=
  claim_C3_timestamp_extraction "See [00:05] and [05:00]." [0, 5, 40] (by simp)

/-- C4: whenever the chat endpoint delivers a timestamp-reference list (the
extraction output passed through the `timestamp_references` field
validator), that list has no duplicate element and is sorted ascending;
the `QueryResult` construction path, which validates the default empty
list, delivers the empty list. -/
theorem claim_C4_delivered_references_sorted_nodup (response : String)
    (avail : List ℚ) (l : List ℚ)
    (h : delivered_timestamp_references response avail = .ok l) :
    l.Nodup ∧ l.Sorted (· ≤ ·) ∧ validate_timestamps [] = .ok [] := by
  refine ⟨?_, ?_, by simp [validate_timestamps]⟩ <;>
  · unfold delivered_timestamp_references validate_timestamps at h
    split_ifs at h with hneg
    simp only [Except.ok.injEq] at h
    subst h
    first
    | exact ((List.perm_insertionSort _ _).symm.nodup
        (by unfold extract_timestamps; exact List.nodup_dedup _))
    | exact List.sorted_insertionSort (fun a b => a ≤ b) _

theorem claim_C4_witness :
    ([] : List ℚ).Nodup ∧ ([] : List ℚ).Sorted (· ≤ ·) ∧
      validate_timestamps [] = .ok [] :=
  claim_C4_delivered_references_sorted_nodup "done" [3] [] (by rfl)

theorem buildPseudoChunks_spec (video_id : String) :
    ∀ (s : List FrameData) (i : ℕ),
      (∀ f ∈ s, hasDescription f) →
      s.Sorted (fun a b => a.timestamp ≤ b.timestamp) →
      (buildPseudoChunks video_id i s).length = s.length ∧
      (buildPseudoChunks video_id i s).map (·.start_time) = s.map (·.timestamp) ∧
      List.Chain'
        (fun a b => a.start_time ≤ b.start_time ∧ a.end_time = b.start_time)
        (buildPseudoChunks video_id i s) ∧
      ∀ h : buildPseudoChunks video_id i s ≠ [],
        ((buildPseudoChunks video_id i s).getLast h).end_time =
          ((buildPseudoChunks video_id i s).getLast h).start_time + 5 := by
  intro s
  induction s with
  | nil => intro i _ _; simp [buildPseudoChunks]
  | cons f rest ih =>
    intro i hdesc hsorted
    have hf : hasDescription f = true := hdesc f (List.mem_cons_self f rest)
    have hdesc' : ∀ g ∈ rest, hasDescription g :=
      fun g hg => hdesc g (List.mem_cons_of_mem f hg)
    have hsorted' : rest.Sorted (fun a b => a.timestamp ≤ b.timestamp) :=
      (List.sorted_cons.mp hsorted).2
    cases rest with
    | nil =>
      simp [buildPseudoChunks, hf]
    | cons g rest' =>
      obtain ⟨ihlen, ihmap, ihchain, ihlast⟩ :=
        ih (i + 1) hdesc' hsorted'
      have hne : buildPseudoChunks video_id (i + 1) (g :: rest') ≠ [] := by
        intro hnil
        have := ihlen
        rw [hnil] at this
        simp at this
      have hbuild : buildPseudoChunks video_id i (f :: g :: rest') =
          { id := video_id ++ "_visual_transcript_" ++ toString i,
            text := "Visual: " ++ f.scene_description.getD "",
            start_time := f.timestamp,
            end_time := g.timestamp } ::
            buildPseudoChunks video_id (i + 1) (g :: rest') := by
        simp [buildPseudoChunks, hf]
      rw [hbuild]
      have hheadstart : ∀ y ∈ (buildPseudoChunks video_id (i + 1) (g :: rest')).head?,
          y.start_time = g.timestamp := by
        intro y hy
        cases hb : buildPseudoChunks video_id (i + 1) (g :: rest') with
        | nil => exact absurd hb hne
        | cons t0 ts =>
          rw [hb] at hy ihmap
          simp only [Option.mem_def, List.head?_cons, Option.some.injEq] at hy
          subst hy
          simpa using congrArg List.head? ihmap
      refine ⟨?_, ?_, ?_, ?_⟩
      · simpa using ihlen
      · simpa using ihmap
      · rw [List.chain'_cons']
        refine ⟨?_, ihchain⟩
        intro y hy
        refine ⟨?_, (hheadstart y hy).symm⟩
        rw [hheadstart y hy]
        exact (List.sorted_cons.mp hsorted).1 g (List.mem_cons_self g rest')
      · intro h
        rw [List.getLast_cons hne]
        exact ihlast hne

/-- C1: for a non-empty list of analyzed frames each carrying a non-empty
scene description, pseudo-transcript synthesis returns exactly one chunk
per frame, in ascending order of frame timestamp, with each chunk ending
where the next one starts, and the last chunk ending 5 seconds after its
own start. -/
theorem claim_C1_pseudo_transcript (video_id : String)
    (analyzed : List FrameData) (h1 : analyzed ≠ [])
    (h2 : ∀ f ∈ analyzed, hasDescription f) :
    (generate_pseudo_transcript_from_frames video_id analyzed).length
        = analyzed.length ∧
    List.Chain'
      (fun a b => a.start_time ≤ b.start_time ∧ a.end_time = b.start_time)
      (generate_pseudo_transcript_from_frames video_id analyzed) ∧
    ∀ h : generate_pseudo_transcript_from_frames video_id analyzed ≠ [],
      ((generate_pseudo_transcript_from_frames video_id analyzed).getLast h).end_time =
        ((generate_pseudo_transcript_from_frames video_id analyzed).getLast h).start_time
          + 5 := by
  have hperm : (sortFramesByTimestamp analyzed).Perm analyzed :=
    List.perm_insertionSort _ _
  have hdesc : ∀ f ∈ sortFramesByTimestamp analyzed, hasDescription f :=
    fun f hf => h2 f (hperm.mem_iff.mp hf)
  have hsorted : (sortFramesByTimestamp analyzed).Sorted
      (fun a b => a.timestamp ≤ b.timestamp) :=
    List.sorted_insertionSort _ analyzed
  obtain ⟨hlen, _hmap, hchain, hlast⟩ :=
    buildPseudoChunks_spec video_id (sortFramesByTimestamp analyzed) 0 hdesc hsorted
  have hrw : generate_pseudo_transcript_from_frames video_id analyzed =
      buildPseudoChunks video_id 0 (sortFramesByTimestamp analyzed) := by
    unfold generate_pseudo_transcript_from_frames
    rw [if_neg]
    simpa using h1
  rw [hrw]
  exact ⟨hlen.trans hperm.length_eq, hchain, hlast⟩

theorem claim_C1_witness :
    (generate_pseudo_transcript_from_frames "v"
        [⟨"f1", "p1", 3, some "desk", [], []⟩,
         ⟨"f0", "p0", 1, some "cat", [], []⟩]).length =
      ([⟨"f1", "p1", 3, some "desk", [], []⟩,
        ⟨"f0", "p0", 1, some "cat", [], []⟩] : List FrameData).length ∧
    List.Chain'
      (fun a b => a.start_time ≤ b.start_time ∧ a.end_time = b.start_time)
      (generate_pseudo_transcript_from_frames "v"
        [⟨"f1", "p1", 3, some "desk", [], []⟩,
         ⟨"f0", "p0", 1, some "cat", [], []⟩]) ∧
    ∀ h : generate_pseudo_transcript_from_frames "v"
        [⟨"f1", "p1", 3, some "desk", [], []⟩,
         ⟨"f0", "p0", 1, some "cat", [], []⟩] ≠ [],
      ((generate_pseudo_transcript_from_frames "v"
        [⟨"f1", "p1", 3, some "desk", [], []⟩,
         ⟨"f0", "p0", 1, some "cat", [], []⟩]).getLast h).end_time =
        ((generate_pseudo_transcript_from_frames "v"
        [⟨"f1", "p1", 3, some "desk", [], []⟩,
         ⟨"f0", "p0", 1, some "cat", [], []⟩]).getLast h).start_time + 5 :=
  claim_C1_pseudo_transcript "v"
    [⟨"f1", "p1", 3, some "desk", [], []⟩, ⟨"f0", "p0", 1, some "cat", [], []⟩]
    (by simp) (by decide)

theorem analyzeFramesProgress_spec (n : ℕ) :
    ∀ (flags : List Bool) (i : ℕ), i + flags.length ≤ n →
      List.Chain' (· ≤ ·) (analyzeFramesProgress n i flags) ∧
      ∀ x ∈ analyzeFramesProgress n i flags,
        3/10 + 3/10 * ((i : ℚ) + 1) / (n : ℚ) ≤ x ∧ x ≤ 6/10 := by
  intro flags
  induction flags with
  | nil => intro i _; simp [analyzeFramesProgress]
  | cons b rest ih =>
    intro i hle
    simp only [List.length_cons] at hle
    have hsucc : (i + 1) + rest.length ≤ n := by omega
    have hnq : (0 : ℚ) < (n : ℚ) := by
      exact_mod_cast (show 0 < n by omega)
    have hi1 : ((i : ℚ) + 1) ≤ (n : ℚ) := by
      exact_mod_cast (show i + 1 ≤ n by omega)
    obtain ⟨ihchain, ihbound⟩ := ih (i + 1) hsucc
    have hmono : 3/10 + 3/10 * ((i : ℚ) + 1) / (n : ℚ) ≤
        3/10 + 3/10 * (((i : ℕ) + 1 : ℚ) + 1) / (n : ℚ) := by
      gcongr
      linarith
    have hub : 3/10 + 3/10 * ((i : ℚ) + 1) / (n : ℚ) ≤ 6/10 := by
      have h1 : ((i : ℚ) + 1) / (n : ℚ) ≤ 1 := (div_le_one hnq).mpr hi1
      rw [mul_div_assoc]
      nlinarith [h1]
    have ihbound' : ∀ x ∈ analyzeFramesProgress n (i + 1) rest,
        3/10 + 3/10 * ((i : ℚ) + 1) / (n : ℚ) ≤ x ∧ x ≤ 6/10 := by
      intro x hx
      obtain ⟨hl, hu⟩ := ihbound x hx
      exact ⟨le_trans hmono (by push_cast at hl ⊢; linarith), hu⟩
    cases b with
    | false =>
      simpa [analyzeFramesProgress] using ⟨ihchain, ihbound'⟩
    | true =>
      simp only [analyzeFramesProgress, if_pos, List.singleton_append]
      refine ⟨?_, ?_⟩
      · rw [List.chain'_cons']
        refine ⟨?_, ihchain⟩
        intro y hy
        have hymem : y ∈ analyzeFramesProgress n (i + 1) rest :=
          List.mem_of_mem_head? hy
        exact (ihbound' y hymem).1
      · intro x hx
        rcases List.mem_cons.mp hx with h | h
        · subst h
          exact ⟨le_refl _, hub⟩
        · exact ihbound' x h

theorem chainSandwich (mid : List ℚ) (hc : List.Chain' (· ≤ ·) mid)
    (hb : ∀ x ∈ mid, 3/10 ≤ x ∧ x ≤ 6/10) :
    List.Chain' (· ≤ ·)
      ((1/10 : ℚ) :: (mid ++ [6/10, 7/10, 8/10, 8/10, 9/10, 1])) := by
  rw [List.chain'_cons']
  constructor
  · intro y hy
    cases mid with
    | nil =>
      simp only [List.nil_append, List.head?_cons, Option.mem_def,
        Option.some.injEq] at hy
      rw [← hy]
      norm_num
    | cons m ms =>
      simp only [List.cons_append, List.head?_cons, Option.mem_def,
        Option.some.injEq] at hy
      have := (hb m (List.mem_cons_self m ms)).1
      rw [← hy]
      linarith
  · rw [List.chain'_append]
    refine ⟨hc, ?_, ?_⟩
    · norm_num [List.chain'_cons, List.chain'_singleton]
    · intro x hx y hy
      simp only [List.head?_cons, Option.mem_def, Option.some.injEq] at hy
      have hxmem : x ∈ mid := by
        obtain ⟨hne, hx'⟩ := List.mem_getLast?_eq_getLast hx
        rw [hx']
        exact List.getLast_mem hne
      have := (hb x hxmem).2
      rw [← hy]
      linarith

theorem pipelineProcessingWrites_progress_chain (cfg : PipelineCfg) :
    List.Chain' (· ≤ ·)
      ((pipelineProcessingWrites cfg ++ [(⟨"completed", 1⟩ : StatusWrite)]).map
        (·.progress)) := by
  obtain ⟨hchain, hbound⟩ :=
    analyzeFramesProgress_spec cfg.analysis_empty.length cfg.analysis_empty 0
      (by simp)
  have hkey : ∀ mid : List ℚ, List.Chain' (· ≤ ·) mid →
      (∀ x ∈ mid, 3/10 ≤ x ∧ x ≤ 6/10) →
      List.Chain' (· ≤ ·)
        (((1/10 : ℚ) :: mid) ++ [6/10, 7/10, 8/10, 8/10, 9/10, 1]) := by
    intro mid h1 h2
    simpa using chainSandwich mid h1 h2
  unfold pipelineProcessingWrites
  rcases hTO : cfg.transcript_only with _ | _
  · rcases hFA : cfg.file_available with _ | _
    · simpa [hTO, hFA] using hkey [] (by simp) (by simp)
    · have hbound' : ∀ x ∈ (3/10 : ℚ) ::
          analyzeFramesProgress cfg.analysis_empty.length 0 cfg.analysis_empty,
          3/10 ≤ x ∧ x ≤ 6/10 := by
        intro x hx
        rcases List.mem_cons.mp hx with h | h
        · rw [h]; norm_num
        · obtain ⟨hl, hu⟩ := hbound x h
          refine ⟨le_trans ?_ hl, hu⟩
          have : (0 : ℚ) ≤ 3/10 * ((0 : ℚ) + 1) / (cfg.analysis_empty.length : ℚ) := by
            positivity
          linarith
      have hchain' : List.Chain' (· ≤ ·) ((3/10 : ℚ) ::
          analyzeFramesProgress cfg.analysis_empty.length 0 cfg.analysis_empty) := by
        rw [List.chain'_cons']
        refine ⟨?_, hchain⟩
        intro y hy
        exact (hbound' y (List.mem_cons_of_mem _ (List.mem_of_mem_head? hy))).1
      have := hkey _ hchain' hbound'
      simpa [hTO, hFA, List.map_map, Function.comp_def] using this
  · simpa [hTO] using hkey [3/10] (by simp) (by norm_num)

theorem pipelineProcessingWrites_status (cfg : PipelineCfg) :
    ∀ w ∈ pipelineProcessingWrites cfg, w.status = "processing" := by
  intro w hw
  unfold pipelineProcessingWrites at hw
  simp only [List.mem_append] at hw
  rcases hw with (hw | hw) | hw
  · simp only [List.mem_singleton] at hw
    rw [hw]
  · split at hw
    · simp only [List.mem_singleton] at hw
      rw [hw]
    · split at hw
      · rcases List.mem_cons.mp hw with hw | hw
        · rw [hw]
        · obtain ⟨p, _, hp⟩ := List.mem_map.mp hw
          rw [← hp]
      · simp at hw
  · simp only [List.mem_cons, List.mem_singleton, List.not_mem_nil,
      or_false] at hw
    rcases hw with hw | hw | hw | hw | hw <;> rw [hw]

theorem takeWhile_append_all {α : Type} (p : α → Bool) :
    ∀ (l l' : List α), (∀ x ∈ l, p x = true) →
      (l ++ l').takeWhile p = l ++ l'.takeWhile p := by
  intro l
  induction l with
  | nil => intro l' _; simp
  | cons a l ih =>
    intro l' h
    have ha := h a (List.mem_cons_self a l)
    simp [List.takeWhile_cons, ha,
      ih l' (fun x hx => h x (List.mem_cons_of_mem a hx))]

/-- C8 (amended): within one pipeline run, the progress values written to
the status tracker before the terminal (`completed`/`failed`) write form a
non-decreasing sequence, for every branch configuration and for a failure
at any point. -/
theorem claim_C8_amended_progress_monotonic (cfg : PipelineCfg)
    (failAfter : Option ℕ) :
    List.Chain' (· ≤ ·)
      ((writesBeforeTerminal (process_video_pipeline_writes cfg failAfter)).map
        (·.progress)) := by
  have hp : ∀ w ∈ pipelineProcessingWrites cfg, (!isTerminalWrite w) = true := by
    intro w hw
    rw [isTerminalWrite, pipelineProcessingWrites_status cfg w hw]
    rfl
  have hbig := pipelineProcessingWrites_progress_chain cfg
  have hchainproc : List.Chain' (· ≤ ·)
      ((pipelineProcessingWrites cfg).map (·.progress)) :=
    (List.chain'_append.mp (by simpa [List.map_append] using hbig)).1
  have hcompleted :
      List.takeWhile (fun w => !isTerminalWrite w)
        [(⟨"completed", 1⟩ : StatusWrite)] = [] := by rfl
  have hfailed :
      List.takeWhile (fun w => !isTerminalWrite w)
        [(⟨"failed", 0⟩ : StatusWrite)] = [] := by rfl
  cases failAfter with
  | none =>
    simp only [process_video_pipeline_writes, writesBeforeTerminal]
    rw [takeWhile_append_all _ _ _ hp, hcompleted, List.append_nil]
    exact hchainproc
  | some k =>
    simp only [process_video_pipeline_writes, writesBeforeTerminal]
    rcases le_or_lt k (pipelineProcessingWrites cfg).length with hk | hk
    · rw [List.take_append_of_le_length hk,
        takeWhile_append_all _ _ _ (fun x hx => hp x (List.mem_of_mem_take hx)),
        hfailed, List.append_nil, List.map_take]
      exact List.Chain'.take hchainproc k
    · rw [List.take_append_eq_append_take,
        List.take_of_length_le (le_of_lt hk),
        List.take_of_length_le (by simpa using by omega),
        List.append_assoc,
        takeWhile_append_all _ _ _ hp]
      rw [show List.takeWhile (fun w => !isTerminalWrite w)
          ([(⟨"completed", 1⟩ : StatusWrite)] ++ [⟨"failed", 0⟩]) = [] from rfl,
        List.append_nil]
      exact hchainproc

/-- C8 (counterexample): in the run of a regular video with local media and
two extracted frames, the first of which gets an empty analysis result (the
run then failing at the chapters stage, as any exception does), the pipeline
writes the progress value `0.3 + 0.3 * 1/2 = 0.45` before any terminal
write — a value that is not among the fixed checkpoints 0.1, 0.3, 0.6, 0.7,
0.8, 0.9, 1.0 named by the claim. -/
theorem claim_C8_counterexample_interpolated_write :
    (9/20 : ℚ) ∈
      ((writesBeforeTerminal
        (process_video_pipeline_writes ⟨false, true, [true, false]⟩
          (some 7))).map (·.progress)) ∧
    (9/20 : ℚ) ∉ checkpointProgresses := by
  have hval : analyzeFramesProgress 2 0 [true, false] = [9/20] := by
    norm_num [analyzeFramesProgress]
  have hproc : pipelineProcessingWrites ⟨false, true, [true, false]⟩ =
      [⟨"processing", 1/10⟩, ⟨"processing", 3/10⟩, ⟨"processing", 9/20⟩,
       ⟨"processing", 6/10⟩, ⟨"processing", 7/10⟩, ⟨"processing", 8/10⟩,
       ⟨"processing", 8/10⟩, ⟨"processing", 9/10⟩] := by
    simp [pipelineProcessingWrites, hval]
  have htrace : process_video_pipeline_writes ⟨false, true, [true, false]⟩
      (some 7) =
      [⟨"processing", 1/10⟩, ⟨"processing", 3/10⟩, ⟨"processing", 9/20⟩,
       ⟨"processing", 6/10⟩, ⟨"processing", 7/10⟩, ⟨"processing", 8/10⟩,
       ⟨"processing", 8/10⟩, ⟨"failed", 0⟩] := by
    rw [show process_video_pipeline_writes ⟨false, true, [true, false]⟩
        (some 7) =
        (pipelineProcessingWrites ⟨false, true, [true, false]⟩ ++
          [(⟨"completed", 1⟩ : StatusWrite)]).take 7 ++
          [(⟨"failed", 0⟩ : StatusWrite)] from rfl, hproc]
    rfl
  constructor
  · rw [htrace]
    rw [show writesBeforeTerminal
        [⟨"processing", 1/10⟩, ⟨"processing", 3/10⟩, ⟨"processing", 9/20⟩,
         ⟨"processing", 6/10⟩, ⟨"processing", 7/10⟩, ⟨"processing", 8/10⟩,
         ⟨"processing", 8/10⟩, ⟨"failed", 0⟩] =
        [⟨"processing", 1/10⟩, ⟨"processing", 3/10⟩, ⟨"processing", 9/20⟩,
         ⟨"processing", 6/10⟩, ⟨"processing", 7/10⟩, ⟨"processing", 8/10⟩,
         ⟨"processing", 8/10⟩] from rfl]
    exact List.mem_cons_of_mem _ (List.mem_cons_of_mem _
      (List.mem_cons_self _ _))
  · norm_num [checkpointProgresses]

end MMV
